import Mathlib

/-
  Verification of the libpetab-python core against its specification.

  Shallow embedding of:
    - the SBML fragment of libsbml that petab.sbml manipulates
      (parameters, species, compartments, assignment/rate rules,
      initial assignments),
    - petab/sbml.py        (assignment_rules_to_dict, get_sigmas,
                            get_model_for_condition),
    - petab/models/model.py      (model_factory),
    - petab/models/pysb_model.py (PySBModel.get_parameter_value).

  Numeric values are modelled as rationals: the code under scrutiny only
  stores, copies and compares these values, it never performs floating
  point arithmetic on them.  Python runtime values that may flow through
  dynamically typed code are modelled by `PyVal` (None, a number, or a
  string); Python truthiness is `PyVal.truthy`.  Fallible code returns
  `Except String`.
-/

set_option maxHeartbeats 1000000

namespace PetabSpec

/-- A dynamically typed Python value as it flows through the petab code:
`None`, a float (modelled as a rational), or a string. -/
inductive PyVal where
  | none
  | num (q : ℚ)
  | str (s : String)
deriving DecidableEq, Repr

/-- Python truthiness of a `PyVal`: `None` and `0.0` and the empty string
are falsy, everything else is truthy. -/
def PyVal.truthy : PyVal → Bool
  | PyVal.none => false
  | PyVal.num q => decide (q ≠ 0)
  | PyVal.str s => decide (s ≠ "")

/-- `str.startswith` of Python, on the character lists of the strings. -/
def strStartsWith (s pre : String) : Bool :=
  pre.data.isPrefixOf s.data

/-- `re.sub` with an anchored literal pattern, as used in `get_sigmas`:
if `s` starts with `pat`, replace that leading occurrence by `repl`,
otherwise return `s` unchanged. -/
def reSubStart (pat repl s : String) : String :=
  if strStartsWith s pat then String.mk (repl.data ++ s.data.drop pat.data.length)
  else s

/-! ## The SBML data model (the fragment used by petab.sbml) -/

/-- A global SBML parameter. -/
structure SbmlParameter where
  id : String
  name : String
  value : ℚ
  constant : Bool
deriving DecidableEq, Repr

/-- An SBML species.  `initialAmount` and `initialConcentration` carry
`Option` values: `Option.none` models the libsbml unset state. -/
structure SbmlSpecies where
  id : String
  compartment : String
  initialAmount : Option ℚ
  initialConcentration : Option ℚ
  hasOnlySubstanceUnits : Bool
deriving DecidableEq, Repr

/-- An SBML compartment. -/
structure SbmlCompartment where
  id : String
  size : ℚ
deriving DecidableEq, Repr

/-- The libsbml rule type codes relevant here: petab only treats rules
whose type code is `SBML_ASSIGNMENT_RULE` as assignment rules. -/
inductive SbmlRuleType where
  | assignment
  | rate
deriving DecidableEq, Repr

/-- An SBML rule with a variable (assignment or rate rule).  `var` is the
rule variable (the target id), `formula` the right hand side. -/
structure SbmlRule where
  typeCode : SbmlRuleType
  var : String
  formula : String
deriving DecidableEq, Repr

/-- An SBML initial assignment targeting `symbol`. -/
structure SbmlInitialAssignment where
  symbol : String
  formula : String
deriving DecidableEq, Repr

/-- An SBML model: the entity lists that petab.sbml reads and rewrites. -/
structure SbmlModel where
  parameters : List SbmlParameter
  species : List SbmlSpecies
  compartments : List SbmlCompartment
  rules : List SbmlRule
  initialAssignments : List SbmlInitialAssignment
deriving DecidableEq, Repr

/-! ## libsbml accessors and mutators -/

/-- Remove the first element of a list satisfying `p` (libsbml removal
semantics for id based removal). -/
def removeFirst (p : α → Bool) : List α → List α
  | [] => []
  | x :: xs => if p x then xs else x :: removeFirst p xs

/-- Apply `f` to the first element of a list satisfying `p` (libsbml
setters act on the object returned by an id based getter). -/
def mapFirst (p : α → Bool) (f : α → α) : List α → List α
  | [] => []
  | x :: xs => if p x then f x :: xs else x :: mapFirst p f xs

/-- `Model.getParameter(id)`: the first parameter with the given id, or
None. -/
def SbmlModel.getParameter (m : SbmlModel) (id_ : String) : Option SbmlParameter :=
  m.parameters.find? (fun p => p.id == id_)

/-- `Model.getSpecies(id)`. -/
def SbmlModel.getSpecies (m : SbmlModel) (id_ : String) : Option SbmlSpecies :=
  m.species.find? (fun s => s.id == id_)

/-- `Model.getCompartment(id)`. -/
def SbmlModel.getCompartment (m : SbmlModel) (id_ : String) : Option SbmlCompartment :=
  m.compartments.find? (fun c => c.id == id_)

/-- `Model.getRuleByVariable(id)`: the first rule with the given
variable, or None. -/
def SbmlModel.getRuleByVariable (m : SbmlModel) (id_ : String) : Option SbmlRule :=
  m.rules.find? (fun r => r.var == id_)

/-- `Model.removeRuleByVariable(id)`: drop the first rule with the given
variable. -/
def SbmlModel.removeRuleByVariable (m : SbmlModel) (id_ : String) : SbmlModel :=
  { m with rules := removeFirst (fun r => r.var == id_) m.rules }

/-- `Model.removeInitialAssignment(id)`. -/
def SbmlModel.removeInitAssignment (m : SbmlModel) (id_ : String) : SbmlModel :=
  { m with initialAssignments :=
      removeFirst (fun ia => ia.symbol == id_) m.initialAssignments }

/-- `Model.removeParameter(id)`: drop the first parameter with the given
id. -/
def SbmlModel.removeParameter (m : SbmlModel) (id_ : String) : SbmlModel :=
  { m with parameters := removeFirst (fun p => p.id == id_) m.parameters }

/-- libsbml `Species.setInitialAmount`: sets the initial amount and, since
amount and concentration are mutually exclusive in SBML, marks the initial
concentration as unset. -/
def speciesSetInitialAmount (s : SbmlSpecies) (q : ℚ) : SbmlSpecies :=
  { s with initialAmount := some q, initialConcentration := Option.none }

/-- libsbml `Species.setInitialConcentration`: dually to
`speciesSetInitialAmount`. -/
def speciesSetInitialConcentration (s : SbmlSpecies) (q : ℚ) : SbmlSpecies :=
  { s with initialConcentration := some q, initialAmount := Option.none }

/-! ## Python dictionaries as association lists

A Python dict is modelled as an association list in insertion order:
inserting an existing key replaces the value in place, inserting a new
key appends. -/

/-- Insert into a Python dict. -/
def dictInsert (d : List (String × α)) (k : String) (v : α) : List (String × α) :=
  if (d.find? (fun kv => kv.1 == k)).isSome then
    d.map (fun kv => if kv.1 == k then (k, v) else kv)
  else d ++ [(k, v)]

/-- `dict.get` / `dict[k]` as an `Option`. -/
def dictLookup (d : List (String × α)) (k : String) : Option α :=
  (d.find? (fun kv => kv.1 == k)).map (fun kv => kv.2)

/-- The keys of a dict, in insertion order. -/
def dictKeys (d : List (String × α)) : List String :=
  d.map (fun kv => kv.1)

/-! ## petab/sbml.py: assignment_rules_to_dict and get_sigmas -/

/-- One value of the dictionary built by `assignment_rules_to_dict`:
the name of the target parameter and the rule formula. -/
structure RuleEntry where
  name : String
  formula : String
deriving DecidableEq, Repr

/-- One iteration of the dictionary building loop of
`assignment_rules_to_dict`: skip non assignment rules, look the rule
variable up among the parameters, filter, and insert the entry. -/
def rulesToDictStep (sbml_model : SbmlModel)
    (filter_function : SbmlParameter → Bool)
    (result : List (String × RuleEntry)) (rule : SbmlRule) :
    List (String × RuleEntry) :=
  if rule.typeCode != SbmlRuleType.assignment then result
  else
    match sbml_model.getParameter rule.var with
    | Option.none => result
    | some parameter =>
      if filter_function parameter then
        dictInsert result rule.var ⟨parameter.name, rule.formula⟩
      else result

/-- The dictionary building loop of `assignment_rules_to_dict`: iterate
over the rules of the model in declaration order, keep assignment rules
whose variable resolves to a parameter satisfying `filter_function`. -/
def rulesToDictResult (sbml_model : SbmlModel)
    (filter_function : SbmlParameter → Bool) : List (String × RuleEntry) :=
  sbml_model.rules.foldl (rulesToDictStep sbml_model filter_function) []

/-- `assignment_rules_to_dict(sbml_model, filter_function, remove)`:
returns the dictionary together with the model after the call (the
Python function mutates `sbml_model` in place when `remove` is set;
the state passing makes that mutation explicit). -/
def assignment_rules_to_dict (sbml_model : SbmlModel)
    (filter_function : SbmlParameter → Bool) (remove : Bool) :
    List (String × RuleEntry) × SbmlModel :=
  let result := rulesToDictResult sbml_model filter_function
  let model_after :=
    if remove then
      (dictKeys result).foldl
        (fun m parameter_id =>
          (m.removeRuleByVariable parameter_id).removeParameter parameter_id)
        sbml_model
    else sbml_model
  (result, model_after)

/-- `sbml_parameter_is_observable`. -/
def sbml_parameter_is_observable (p : SbmlParameter) : Bool :=
  strStartsWith p.id "observable_"

/-- `sbml_parameter_is_sigma`. -/
def sbml_parameter_is_sigma (p : SbmlParameter) : Bool :=
  strStartsWith p.id "sigma_"

/-- `get_sigmas(sbml_model, remove)`: extract the sigma rules and
renormalize each key by substituting the leading sigma marker with the
observable marker; values are the bare formulas.  The key substitution is
injective on the extracted keys, so the Python dict comprehension is a
plain map over the entries. -/
def get_sigmas (sbml_model : SbmlModel) (remove : Bool) :
    List (String × String) × SbmlModel :=
  let p := assignment_rules_to_dict sbml_model sbml_parameter_is_sigma remove
  (p.1.map (fun kv => (reSubStart "sigma_" "observable_" kv.1, kv.2.formula)), p.2)

/-! ## petab/models/pysb_model.py -/

/-- A PySB parameter component: a name and a numeric value. -/
structure PysbParameter where
  name : String
  value : ℚ
deriving DecidableEq, Repr

/-- A PySB model, reduced to its parameter component list. -/
structure PysbModel where
  parameters : List PysbParameter
deriving DecidableEq, Repr

/-- Indexing a PySB `ComponentSet` by component name (raises `KeyError`
on a missing name, here `Option.none`). -/
def pysbComponentGet (ps : List PysbParameter) (id_ : String) : Option PysbParameter :=
  ps.find? (fun p => p.name == id_)

/-- `PySBModel.get_parameter_value(id_)` exactly as written in the
source: on success it returns `self.model.parameters[id_].name` — the
NAME attribute of the component, a string — and on a missing id it turns
the `KeyError` into `ValueError("Parameter {id_} does not exist.")`. -/
def pysb_get_parameter_value (model : PysbModel) (id_ : String) : Except String PyVal :=
  match pysbComponentGet model.parameters id_ with
  | some p => Except.ok (PyVal.str p.name)
  | Option.none => Except.error ("Parameter " ++ id_ ++ " does not exist.")

/-! ## petab/models/model.py: model_factory -/

/-- The result of the model factory: one wrapper per supported variant. -/
inductive LoadedModel where
  | sbml (m : SbmlModel)
  | pysb (m : PysbModel)
deriving Repr

/-- `model_factory(filepath_or_buffer, model_language)`.  The two
loaders (`SbmlModel.from_file`, `PySBModel.from_file`) are passed as
functions over an abstract source type: the factory performs no source
access of its own, it only dispatches on the language tag, and raises
`ValueError("Unsupported model format: ...")` for any other tag. -/
def model_factory {α : Type} (load_sbml : α → SbmlModel) (load_pysb : α → PysbModel)
    (filepath_or_buffer : α) (model_language : String) : Except String LoadedModel :=
  if model_language = "sbml" then
    Except.ok (LoadedModel.sbml (load_sbml filepath_or_buffer))
  else if model_language = "pysb" then
    Except.ok (LoadedModel.pysb (load_pysb filepath_or_buffer))
  else
    Except.error ("Unsupported model format: " ++ model_language)

/-! ## petab/sbml.py: get_model_for_condition

The external Parameter Mapper (an out of scope collaborator per the
specification) supplies `parameter_map`; the parameter table supplies the
nominal values; `condition_row` is the row of the condition table selected
by the simulation condition id, as an ordered column/cell list. -/

/-- The inputs of `get_model_for_condition` that are independent of the
model document: the resolved parameter mapping for the condition, the
nominal value column of the parameter table, and the selected row of the
condition table (column ids with their cell values, in column order). -/
structure CondInput where
  parameter_map : List (String × PyVal)
  nominal_values : List (String × ℚ)
  condition_row : List (String × PyVal)
deriving DecidableEq, Repr

/-- The inner helper `get_param_value(parameter_id)`: read the mapped
value; a missing key yields None; a string value is an estimated
parameter reference, resolved through the nominal value table, where a
missing row raises `KeyError` (an error here).  The two tables the
closure captures are passed explicitly. -/
def get_param_value (parameter_map : List (String × PyVal))
    (nominal_values : List (String × ℚ)) (parameter_id : String) :
    Except String PyVal :=
  match dictLookup parameter_map parameter_id with
  | Option.none => Except.ok PyVal.none
  | some (PyVal.str mapped_value) =>
    match dictLookup nominal_values mapped_value with
    | some q => Except.ok (PyVal.num q)
    | Option.none => Except.error ("KeyError: " ++ mapped_value)
  | some v => Except.ok v

/-- The inner helper `remove_rules(target_id)`: drop the first rule with
the given variable (warning on removal, a logging side channel that is
not modelled) and the initial assignment with the given symbol. -/
def remove_rules (m : SbmlModel) (target_id : String) : SbmlModel :=
  (m.removeRuleByVariable target_id).removeInitAssignment target_id

/-- One iteration of the parameter loop, acting on the parameter at
position `i` (the loop iterates over the live parameter list, so the
parameter is read from the current model state).  The Python guard
`if new_value:` is a truthiness test: None and 0.0 are skipped.  A truthy
non numeric value would make `Parameter.setValue` raise a `TypeError`. -/
def parameterStep (parameter_map : List (String × PyVal))
    (nominal_values : List (String × ℚ)) (m : SbmlModel) (i : Nat) :
    Except String SbmlModel :=
  match m.parameters[i]? with
  | Option.none => Except.ok m
  | some parameter =>
    match get_param_value parameter_map nominal_values parameter.id with
    | Except.error e => Except.error e
    | Except.ok new_value =>
      if new_value.truthy then
        match new_value with
        | PyVal.num q =>
          let m1 : SbmlModel :=
            { m with parameters := m.parameters.set i { parameter with value := q } }
          Except.ok (remove_rules m1 parameter.id)
        | _ => Except.error "TypeError: setValue expects a number"
      else Except.ok m

/-- The parameter loop of `get_model_for_condition`. -/
def parameterLoop (parameter_map : List (String × PyVal))
    (nominal_values : List (String × ℚ)) (m : SbmlModel) :
    Except String SbmlModel :=
  (List.range m.parameters.length).foldlM (parameterStep parameter_map nominal_values) m

/-- Resolution of a condition table cell: a numeric cell is used as is
(no truthiness test here), a string cell is a parameter reference
resolved via `get_param_value`, and a None cell stays None (the mapping
holds no non string key). -/
def resolveConditionValue (parameter_map : List (String × PyVal))
    (nominal_values : List (String × ℚ)) : PyVal → Except String PyVal
  | PyVal.num q => Except.ok (PyVal.num q)
  | PyVal.str s => get_param_value parameter_map nominal_values s
  | PyVal.none => Except.ok PyVal.none

/-- The initial value update of the species loop: the override becomes an
initial amount when the species already has an initial amount set, or has
only substance units and no initial concentration set; otherwise it
becomes an initial concentration. -/
def speciesSetValue (s : SbmlSpecies) (q : ℚ) : SbmlSpecies :=
  if s.initialAmount.isSome
      || (s.hasOnlySubstanceUnits && !s.initialConcentration.isSome) then
    speciesSetInitialAmount s q
  else
    speciesSetInitialConcentration s q

/-- Apply `speciesSetValue` to the species object returned by
`getSpecies`, i.e. to the first species with the given id. -/
def SbmlModel.setSpeciesInitial (m : SbmlModel) (id_ : String) (q : ℚ) : SbmlModel :=
  { m with species := mapFirst (fun s => s.id == id_) (fun s => speciesSetValue s q) m.species }

/-- `Compartment.setSize` on the compartment returned by
`getCompartment`. -/
def SbmlModel.setCompartmentSize (m : SbmlModel) (id_ : String) (q : ℚ) : SbmlModel :=
  { m with compartments :=
      mapFirst (fun c => c.id == id_) (fun c => { c with size := q }) m.compartments }

/-- One iteration of the species loop, for the condition table column
`col` (column id and cell value): a column that does not name a species
is skipped; otherwise rules on the species are removed, the cell is
resolved, and the initial value is set.  A non numeric resolved value
would make the libsbml setter raise a `TypeError`. -/
def speciesStep (parameter_map : List (String × PyVal))
    (nominal_values : List (String × ℚ)) (m : SbmlModel) (col : String × PyVal) :
    Except String SbmlModel :=
  match m.getSpecies col.1 with
  | Option.none => Except.ok m
  | some _ =>
    let m1 := remove_rules m col.1
    match resolveConditionValue parameter_map nominal_values col.2 with
    | Except.error e => Except.error e
    | Except.ok (PyVal.num q) => Except.ok (m1.setSpeciesInitial col.1 q)
    | Except.ok _ => Except.error "TypeError: setInitialAmount expects a number"

/-- One iteration of the compartment loop, for the condition table column
`col`: a column that does not name a compartment is skipped; otherwise
rules on the compartment are removed, the cell is resolved, and the size
is set. -/
def compartmentStep (parameter_map : List (String × PyVal))
    (nominal_values : List (String × ℚ)) (m : SbmlModel) (col : String × PyVal) :
    Except String SbmlModel :=
  match m.getCompartment col.1 with
  | Option.none => Except.ok m
  | some _ =>
    let m1 := remove_rules m col.1
    match resolveConditionValue parameter_map nominal_values col.2 with
    | Except.error e => Except.error e
    | Except.ok (PyVal.num q) => Except.ok (m1.setCompartmentSize col.1 q)
    | Except.ok _ => Except.error "TypeError: setSize expects a number"

/-- The body of `get_model_for_condition` applied to the working copy of
the model: the parameter loop, then the species loop over all condition
table columns, then the compartment loop over all condition table
columns. -/
def applyCondition (parameter_map : List (String × PyVal))
    (nominal_values : List (String × ℚ))
    (condition_row : List (String × PyVal)) (m0 : SbmlModel) :
    Except String SbmlModel :=
  match parameterLoop parameter_map nominal_values m0 with
  | Except.error e => Except.error e
  | Except.ok m1 =>
    match condition_row.foldlM (speciesStep parameter_map nominal_values) m1 with
    | Except.error e => Except.error e
    | Except.ok m2 =>
      condition_row.foldlM (compartmentStep parameter_map nominal_values) m2

/-- `get_model_for_condition` on the working copy directly: clone the
base model value and apply the condition to the clone. -/
def get_model_for_condition (inp : CondInput) (base_model : SbmlModel) :
    Except String SbmlModel :=
  applyCondition inp.parameter_map inp.nominal_values inp.condition_row base_model

/-- `get_model_for_condition` at the level of a document store.  SBML
documents live in a store (a list of documents, indices are handles).
The function reads the base document at handle `base`, appends a clone,
and mutates only through the clone handle; the final store is returned
next to the result so that the fate of every pre existing document is
observable, also when the build fails.  On failure the clone document is
in an unspecified intermediate state (here: the initial copy), which no
pre existing document depends on. -/
def get_model_for_condition_store (inp : CondInput) (st : List SbmlModel)
    (base : Nat) : List SbmlModel × Except String SbmlModel :=
  match st[base]? with
  | Option.none => (st, Except.error "missing document")
  | some base_doc =>
    let cloned := st ++ [base_doc]
    match applyCondition inp.parameter_map inp.nominal_values inp.condition_row base_doc with
    | Except.ok m2 => (cloned.set st.length m2, Except.ok m2)
    | Except.error e => (cloned, Except.error e)

/-! ## Decidability of Except equality (for concrete evaluations) -/

/-- Decidable equality of `Except` results. -/
instance exceptDecEq {ε α : Type} [DecidableEq ε] [DecidableEq α] :
    DecidableEq (Except ε α) := fun x y =>
  match x, y with
  | Except.error e, Except.error f =>
    if h : e = f then isTrue (by rw [h]) else isFalse (fun hh => by cases hh; exact h rfl)
  | Except.ok a, Except.ok b =>
    if h : a = b then isTrue (by rw [h]) else isFalse (fun hh => by cases hh; exact h rfl)
  | Except.error _, Except.ok _ => isFalse (fun hh => by cases hh)
  | Except.ok _, Except.error _ => isFalse (fun hh => by cases hh)

/-! ## Concrete instances used by the bug evaluations and the witnesses -/

/-- A model with one free parameter `k1 = 2` targeted by an assignment
rule. -/
def zeroOverrideModel : SbmlModel :=
  { parameters := [⟨"k1", "k1", 2, false⟩],
    species := [],
    compartments := [],
    rules := [⟨SbmlRuleType.assignment, "k1", "2 * x"⟩],
    initialAssignments := [] }

/-- A condition input whose parameter mapping resolves `k1` to the
literal value `0.0`. -/
def zeroOverrideInput : CondInput :=
  { parameter_map := [("k1", PyVal.num 0)],
    nominal_values := [],
    condition_row := [] }

/-- The empty SBML model. -/
def emptySbmlModel : SbmlModel :=
  { parameters := [], species := [], compartments := [],
    rules := [], initialAssignments := [] }

/-- The empty PySB model. -/
def emptyPysbModel : PysbModel := ⟨[]⟩

/-- A PySB model with a single parameter `k1` of value `2.0`. -/
def pysbExampleModel : PysbModel := ⟨[⟨"k1", 2⟩]⟩

/-- A model with a PEtab style observable and sigma parameter, each the
target of an assignment rule. -/
def sigExampleModel : SbmlModel :=
  { parameters := [⟨"observable_obsA", "obsA", 0, false⟩,
                   ⟨"sigma_obsA", "sigA", 0, false⟩],
    species := [],
    compartments := [],
    rules := [⟨SbmlRuleType.assignment, "observable_obsA", "k1 * S1"⟩,
              ⟨SbmlRuleType.assignment, "sigma_obsA", "noiseParameter1_obsA"⟩],
    initialAssignments := [] }

/-- A model with one amount only species (no initial amount and no
initial concentration set, only substance units declared) in one
compartment. -/
def amountSpeciesModel : SbmlModel :=
  { parameters := [],
    species := [⟨"S1", "C1", Option.none, Option.none, true⟩],
    compartments := [⟨"C1", 1⟩],
    rules := [],
    initialAssignments := [] }

/-- The species ids of a model, in declaration order. -/
def speciesIds (m : SbmlModel) : List String :=
  m.species.map (fun s => s.id)

/-- The compartment ids of a model, in declaration order. -/
def compartmentIds (m : SbmlModel) : List String :=
  m.compartments.map (fun c => c.id)

/-- The frame facts tracked through the build for one parameter `p`
sitting at position `i` of the parameter list of the base model `B`: the
parameter is unchanged, the species and compartment id lists are those of
`B`, and every rule or initial assignment of `B` targeting the parameter
is still present. -/
def paramUntouched (B : SbmlModel) (i : Nat) (p : SbmlParameter)
    (m : SbmlModel) : Prop :=
  m.parameters[i]? = some p
  ∧ speciesIds m = speciesIds B
  ∧ compartmentIds m = compartmentIds B
  ∧ (∀ r ∈ B.rules, r.var = p.id → r ∈ m.rules)
  ∧ (∀ a ∈ B.initialAssignments, a.symbol = p.id → a ∈ m.initialAssignments)

/-! ## General helper lemmas -/

/-- `removeFirst` yields a sublist. -/
theorem removeFirst_sublist (p : α → Bool) (l : List α) :
    List.Sublist (removeFirst p l) l := by
  induction l with
  | nil => simp [removeFirst]
  | cons x xs ih =>
    by_cases h : p x = true
    · simp [removeFirst, h]
    · simp only [removeFirst, h]
      rw [if_neg (by simp [h])]
      exact List.Sublist.cons₂ x ih

/-- An element not matched by the predicate survives `removeFirst`. -/
theorem mem_removeFirst_of_not (p : α → Bool) {a : α} {l : List α}
    (ha : a ∈ l) (hp : p a = false) : a ∈ removeFirst p l := by
  induction l with
  | nil => cases ha
  | cons x xs ih =>
    by_cases h : p x = true
    · simp only [removeFirst, if_pos h]
      rcases List.mem_cons.mp ha with rfl | hmem
      · rw [h] at hp; cases hp
      · exact hmem
    · simp only [removeFirst, if_neg h]
      rcases List.mem_cons.mp ha with rfl | hmem
      · exact List.mem_cons_self _ _
      · exact List.mem_cons_of_mem x (ih hmem)

/-- Reading a handle other than the freshly appended one. -/
theorem getElem?_append_singleton_ne {st : List α} {d : α} {j : Nat}
    (hj : j ≠ st.length) : (st ++ [d])[j]? = st[j]? := by
  rcases Nat.lt_or_ge j st.length with h | h
  · exact List.getElem?_append_left h
  · have h1 : st.length < j := Nat.lt_of_le_of_ne h (Ne.symm hj)
    rw [List.getElem?_eq_none (l := st) h,
      List.getElem?_eq_none (by simp [Nat.succ_le_of_lt h1])]

/-- With a duplicate free key list, `removeFirst` on a key is `filter`. -/
theorem removeFirst_eq_filter (f : α → String) (k : String) :
    ∀ {l : List α}, (l.map f).Nodup →
      removeFirst (fun x => f x == k) l = l.filter (fun x => !(f x == k)) := by
  intro l h
  induction l with
  | nil => rfl
  | cons x xs ih =>
    simp only [List.map_cons, List.nodup_cons] at h
    obtain ⟨hx, hxs⟩ := h
    by_cases hk : (f x == k) = true
    · simp only [removeFirst, if_pos hk, List.filter_cons, hk, Bool.not_true,
        Bool.false_eq_true, if_neg]
      refine (List.filter_eq_self.mpr ?_).symm
      intro a ha
      have : f a ≠ k := by
        intro he
        apply hx
        rw [beq_iff_eq.mp hk, ← he]
        exact List.mem_map_of_mem f ha
      simp [this]
    · simp only [removeFirst, if_neg hk, List.filter_cons]
      rw [if_pos (by simp [hk]), ih hxs]

/-- Folding a step that yields sublists yields a sublist. -/
theorem foldl_sublist_of_step {step : List α → String → List α}
    (hstep : ∀ l k, List.Sublist (step l k) l) :
    ∀ (ks : List String) (l : List α), List.Sublist (ks.foldl step l) l := by
  intro ks
  induction ks with
  | nil => intro l; exact List.Sublist.refl l
  | cons k ks ih =>
    intro l
    exact List.Sublist.trans (ih (step l k)) (hstep l k)

/-- After folding `removeFirst` over a key list on a list with duplicate
free keys, no surviving element carries any of the keys. -/
theorem foldRemove_not_mem (f : α → String) :
    ∀ (ks : List String) (l : List α), (l.map f).Nodup →
      ∀ k ∈ ks, ∀ x ∈ ks.foldl (fun acc k2 => removeFirst (fun a => f a == k2) acc) l,
        f x ≠ k := by
  intro ks
  induction ks with
  | nil => intro l _ k hk; cases hk
  | cons k0 ks ih =>
    intro l hl k hk x hx
    simp only [List.foldl_cons] at hx
    have hsub : List.Sublist (removeFirst (fun a => f a == k0) l) l :=
      removeFirst_sublist _ l
    have hl0 : ((removeFirst (fun a => f a == k0) l).map f).Nodup :=
      (hsub.map f).nodup hl
    rcases List.mem_cons.mp hk with rfl | hk2
    · have hx0 : x ∈ removeFirst (fun a => f a == k) l :=
        (foldl_sublist_of_step (fun l2 k2 => removeFirst_sublist _ l2) ks _).subset hx
      rw [removeFirst_eq_filter f k hl] at hx0
      have := List.of_mem_filter hx0
      simpa using this
    · exact ih (removeFirst (fun a => f a == k0) l) hl0 k hk2 x hx

/-- The rules component of the removal loop of `assignment_rules_to_dict`
is a fold of rule removals. -/
theorem removeLoop_rules (ks : List String) :
    ∀ m : SbmlModel,
      (ks.foldl (fun mm pid => (mm.removeRuleByVariable pid).removeParameter pid) m).rules
        = ks.foldl (fun rs pid => removeFirst (fun r => r.var == pid) rs) m.rules := by
  induction ks with
  | nil => intro m; rfl
  | cons k ks ih =>
    intro m
    rw [List.foldl_cons, List.foldl_cons, ih]
    rfl

/-- The parameters component of the removal loop of
`assignment_rules_to_dict` is a fold of parameter removals. -/
theorem removeLoop_parameters (ks : List String) :
    ∀ m : SbmlModel,
      (ks.foldl (fun mm pid => (mm.removeRuleByVariable pid).removeParameter pid) m).parameters
        = ks.foldl (fun ps pid => removeFirst (fun p => p.id == pid) ps) m.parameters := by
  induction ks with
  | nil => intro m; rfl
  | cons k ks ih =>
    intro m
    rw [List.foldl_cons, List.foldl_cons, ih]
    rfl

/-- String equality follows from equality of the character lists. -/
theorem string_eq_of_data_eq : ∀ {s t : String}, s.data = t.data → s = t := by
  intro s t h
  cases s
  cases t
  exact congrArg String.mk h

/-- Reading `strStartsWith` as an explicit decomposition. -/
theorem strStartsWith_iff {s pre : String} :
    strStartsWith s pre = true ↔ ∃ t, s.data = pre.data ++ t := by
  unfold strStartsWith
  rw [List.isPrefixOf_iff_prefix]
  constructor
  · rintro ⟨t, ht⟩
    exact ⟨t, ht.symm⟩
  · rintro ⟨t, ht⟩
    exact ⟨t, ht.symm⟩

/-- The key substitution on a sigma marked key, explicitly. -/
theorem reSubStart_of_sigma {s : String} {t : List Char}
    (h : s.data = "sigma_".data ++ t) :
    reSubStart "sigma_" "observable_" s = String.mk ("observable_".data ++ t) := by
  have hs : strStartsWith s "sigma_" = true := strStartsWith_iff.mpr ⟨t, h⟩
  unfold reSubStart
  rw [if_pos hs]
  have hd : s.data.drop ("sigma_" : String).data.length = t := by
    rw [h]
    exact List.drop_left _ _
  rw [hd]

/-- The key substitution is injective on sigma marked keys. -/
theorem reSubStart_inj_on_sigma {s1 s2 : String}
    (h1 : strStartsWith s1 "sigma_" = true) (h2 : strStartsWith s2 "sigma_" = true)
    (he : reSubStart "sigma_" "observable_" s1 = reSubStart "sigma_" "observable_" s2) :
    s1 = s2 := by
  obtain ⟨t1, ht1⟩ := strStartsWith_iff.mp h1
  obtain ⟨t2, ht2⟩ := strStartsWith_iff.mp h2
  rw [reSubStart_of_sigma ht1, reSubStart_of_sigma ht2] at he
  have hdata : "observable_".data ++ t1 = "observable_".data ++ t2 :=
    congrArg String.data he
  have ht : t1 = t2 := List.append_cancel_left hdata
  apply string_eq_of_data_eq
  rw [ht1, ht2, ht]

/-- A substituted key never equals a sigma marked key. -/
theorem reSubStart_ne_sigma {s k : String}
    (hs : strStartsWith s "sigma_" = true) (hk : strStartsWith k "sigma_" = true) :
    reSubStart "sigma_" "observable_" k ≠ s := by
  obtain ⟨t, ht⟩ := strStartsWith_iff.mp hk
  obtain ⟨u, hu⟩ := strStartsWith_iff.mp hs
  rw [reSubStart_of_sigma ht]
  intro he
  have hdata : "observable_".data ++ t = s.data := congrArg String.data he
  rw [hu] at hdata
  have e1 : "observable_".data = 'o' :: "bservable_".data := rfl
  have e2 : "sigma_".data = 's' :: "igma_".data := rfl
  rw [e1, e2, List.cons_append, List.cons_append] at hdata
  injection hdata with hh _
  exact absurd hh (by decide)

/-- Membership after a dict insertion. -/
theorem mem_dictInsert {d : List (String × α)} {k : String} {v : α}
    {kv : String × α} (h : kv ∈ dictInsert d k v) : kv ∈ d ∨ kv = (k, v) := by
  unfold dictInsert at h
  by_cases hf : (d.find? (fun kv => kv.1 == k)).isSome = true
  · rw [if_pos hf] at h
    obtain ⟨kv0, hkv0, heq⟩ := List.mem_map.mp h
    by_cases hk : (kv0.1 == k) = true
    · right
      rw [if_pos hk] at heq
      exact heq.symm
    · left
      rw [if_neg hk] at heq
      exact heq ▸ hkv0
  · rw [if_neg hf] at h
    rcases List.mem_append.mp h with h1 | h2
    · exact Or.inl h1
    · exact Or.inr (by simpa using h2)

/-- `find?` on a cons whose head satisfies the predicate. -/
theorem find?_cons_true {p : α → Bool} {a : α} (l : List α) (h : p a = true) :
    (a :: l).find? p = some a := by
  simp [List.find?_cons, h]

/-- `find?` on a cons whose head fails the predicate. -/
theorem find?_cons_false {p : α → Bool} {a : α} (l : List α) (h : p a = false) :
    (a :: l).find? p = l.find? p := by
  simp [List.find?_cons, h]

/-- Replacing the value at a present key makes `find?` return the new
entry. -/
theorem find?_map_replace_of_mem {d : List (String × α)} (k : String) (v : α)
    (h : (d.find? (fun kv => kv.1 == k)).isSome = true) :
    (d.map (fun kv => if kv.1 == k then (k, v) else kv)).find?
        (fun kv => kv.1 == k) = some (k, v) := by
  have hkv : (((k, v) : String × α).1 == k) = true := by simp
  induction d with
  | nil => simp at h
  | cons kv0 tl ih =>
    rw [List.map_cons]
    cases hk : (kv0.1 == k) with
    | true =>
      have hhead : (if true = true then (k, v) else kv0) = (k, v) := rfl
      rw [hhead, @find?_cons_true _ (fun kv => kv.1 == k) (k, v) _ hkv]
    | false =>
      have htl : (tl.find? (fun kv => kv.1 == k)).isSome = true := by
        rw [@find?_cons_false _ (fun kv => kv.1 == k) kv0 tl hk] at h
        exact h
      have hhead : (if false = true then (k, v) else kv0) = kv0 := rfl
      rw [hhead, @find?_cons_false _ (fun kv => kv.1 == k) kv0 _ hk]
      exact ih htl

/-- Finding the inserted key after a dict insertion. -/
theorem find?_dictInsert_self (d : List (String × α)) (k : String) (v : α) :
    (dictInsert d k v).find? (fun kv => kv.1 == k) = some (k, v) := by
  unfold dictInsert
  by_cases hf : (d.find? (fun kv => kv.1 == k)).isSome = true
  · rw [if_pos hf]
    exact find?_map_replace_of_mem k v hf
  · rw [if_neg hf]
    have hnone : d.find? (fun kv => kv.1 == k) = Option.none := by
      cases he : d.find? (fun kv => kv.1 == k) with
      | none => rfl
      | some x => rw [he] at hf; simp at hf
    rw [List.find?_append, hnone]
    simp

/-- Finding a different key is unaffected by a dict insertion. -/
theorem find?_dictInsert_ne (d : List (String × α)) {k k2 : String} (v : α)
    (h : k ≠ k2) :
    (dictInsert d k2 v).find? (fun kv => kv.1 == k)
      = d.find? (fun kv => kv.1 == k) := by
  have hbv : (((k2, v) : String × α).1 == k) = false := by
    simp only [beq_eq_false_iff_ne]
    exact Ne.symm h
  unfold dictInsert
  by_cases hf : (d.find? (fun kv => kv.1 == k2)).isSome = true
  · rw [if_pos hf]
    clear hf
    induction d with
    | nil => rfl
    | cons kv0 tl ih =>
      rw [List.map_cons]
      cases hk2 : (kv0.1 == k2) with
      | true =>
        have hb2 : (kv0.1 == k) = false := by
          simp only [beq_eq_false_iff_ne]
          intro he
          exact h (he.symm.trans (beq_iff_eq.mp hk2))
        have hhead : (if true = true then (k2, v) else kv0) = (k2, v) := rfl
        rw [hhead, @find?_cons_false _ (fun kv => kv.1 == k) (k2, v) _ hbv,
          @find?_cons_false _ (fun kv => kv.1 == k) kv0 tl hb2]
        exact ih
      | false =>
        have hhead : (if false = true then (k2, v) else kv0) = kv0 := rfl
        rw [hhead]
        cases hb : (kv0.1 == k) with
        | true =>
          rw [@find?_cons_true _ (fun kv => kv.1 == k) kv0 _ hb,
            @find?_cons_true _ (fun kv => kv.1 == k) kv0 tl hb]
        | false =>
          rw [@find?_cons_false _ (fun kv => kv.1 == k) kv0 _ hb,
            @find?_cons_false _ (fun kv => kv.1 == k) kv0 tl hb]
          exact ih
  · rw [if_neg hf]
    rw [List.find?_append]
    have h2 : ([(k2, v)].find? (fun kv => kv.1 == k)) = Option.none := by
      rw [@find?_cons_false _ (fun kv => kv.1 == k) (k2, v) [] hbv]
      rfl
    rw [h2]
    cases d.find? (fun kv => kv.1 == k) <;> rfl

/-- `find?` only depends on the predicate values on the list. -/
theorem find?_congr {p q : α → Bool} :
    ∀ {l : List α}, (∀ x ∈ l, p x = q x) → l.find? p = l.find? q := by
  intro l
  induction l with
  | nil => intro _; rfl
  | cons x xs ih =>
    intro h
    simp only [List.find?_cons]
    rw [h x (List.mem_cons_self _ _)]
    cases q x with
    | true => rfl
    | false => exact ih (fun y hy => h y (List.mem_cons_of_mem x hy))

/-- A parameter found by id carries that id. -/
theorem getParameter_id {m : SbmlModel} {k : String} {p : SbmlParameter}
    (h : m.getParameter k = some p) : p.id = k := by
  unfold SbmlModel.getParameter at h
  have := List.find?_some h
  simpa using this

/-- The dictionary fold leaves keys that no processed rule targets
untouched. -/
theorem find?_rulesToDictStep_ne (m : SbmlModel) (f : SbmlParameter → Bool)
    {k : String} (d : List (String × RuleEntry)) (rule : SbmlRule)
    (h : rule.var ≠ k) :
    (rulesToDictStep m f d rule).find? (fun kv => kv.1 == k)
      = d.find? (fun kv => kv.1 == k) := by
  unfold rulesToDictStep
  by_cases h1 : (rule.typeCode != SbmlRuleType.assignment) = true
  · rw [if_pos h1]
  · rw [if_neg h1]
    cases hp : m.getParameter rule.var with
    | none => rfl
    | some p =>
      dsimp only
      by_cases h2 : f p = true
      · rw [if_pos h2]
        exact find?_dictInsert_ne d _ (Ne.symm h)
      · rw [if_neg h2]

/-- Folding the dictionary step over rules that never target `k` leaves
the entry at `k` untouched. -/
theorem find?_rulesToDictFold_ne (m : SbmlModel) (f : SbmlParameter → Bool)
    {k : String} :
    ∀ (rules : List SbmlRule) (d : List (String × RuleEntry)),
      (∀ r ∈ rules, r.var ≠ k) →
      ((rules.foldl (rulesToDictStep m f) d).find? (fun kv => kv.1 == k))
        = d.find? (fun kv => kv.1 == k) := by
  intro rules
  induction rules with
  | nil => intro d _; rfl
  | cons r0 rest ih =>
    intro d h
    rw [List.foldl_cons, ih _ (fun r hr => h r (List.mem_cons_of_mem r0 hr))]
    exact find?_rulesToDictStep_ne m f d r0 (h r0 (List.mem_cons_self _ _))

/-- Under duplicate free rule variables, the dictionary fold maps the
variable of a kept assignment rule to its entry. -/
theorem find?_rulesToDictFold_mem (m : SbmlModel) (f : SbmlParameter → Bool) :
    ∀ (rules : List SbmlRule) (d : List (String × RuleEntry)),
      (rules.map (fun r => r.var)).Nodup →
      ∀ r ∈ rules, r.typeCode = SbmlRuleType.assignment →
      ∀ p : SbmlParameter, m.getParameter r.var = some p → f p = true →
      ((rules.foldl (rulesToDictStep m f) d).find? (fun kv => kv.1 == r.var))
        = some (r.var, ⟨p.name, r.formula⟩) := by
  intro rules
  induction rules with
  | nil => intro d _ r hr; cases hr
  | cons r0 rest ih =>
    intro d hnd r hr hty p hp hf
    simp only [List.map_cons, List.nodup_cons] at hnd
    obtain ⟨hnm, hnd2⟩ := hnd
    rw [List.foldl_cons]
    rcases List.mem_cons.mp hr with rfl | hr2
    · have hrest : ∀ r2 ∈ rest, r2.var ≠ r.var := by
        intro r2 hr2 he
        exact hnm (he ▸ List.mem_map_of_mem (fun r3 => r3.var) hr2)
      rw [find?_rulesToDictFold_ne m f rest _ hrest]
      have hstep : rulesToDictStep m f d r
          = dictInsert d r.var ⟨p.name, r.formula⟩ := by
        unfold rulesToDictStep
        rw [if_neg (by simp [hty]), hp]
        dsimp only
        rw [if_pos hf]
      rw [hstep]
      exact find?_dictInsert_self d r.var _
    · exact ih _ hnd2 r hr2 hty p hp hf

/-- Every entry of the dictionary fold, beyond the seed, stems from a
parameter that satisfies the predicate. -/
theorem mem_rulesToDictFold (m : SbmlModel) (f : SbmlParameter → Bool) :
    ∀ (rules : List SbmlRule) (d : List (String × RuleEntry))
      (kv : String × RuleEntry), kv ∈ rules.foldl (rulesToDictStep m f) d →
      kv ∈ d ∨ ∃ p : SbmlParameter, m.getParameter kv.1 = some p ∧ f p = true := by
  intro rules
  induction rules with
  | nil =>
    intro d kv h
    exact Or.inl h
  | cons r0 rest ih =>
    intro d kv h
    rw [List.foldl_cons] at h
    rcases ih _ kv h with h1 | h2
    · unfold rulesToDictStep at h1
      by_cases hty : (r0.typeCode != SbmlRuleType.assignment) = true
      · rw [if_pos hty] at h1
        exact Or.inl h1
      · rw [if_neg hty] at h1
        cases hp : m.getParameter r0.var with
        | none =>
          rw [hp] at h1
          exact Or.inl h1
        | some p =>
          rw [hp] at h1
          dsimp only at h1
          by_cases hf : f p = true
          · rw [if_pos hf] at h1
            rcases mem_dictInsert h1 with h3 | h3
            · exact Or.inl h3
            · refine Or.inr ⟨p, ?_, hf⟩
              rw [h3]
              exact hp
          · rw [if_neg hf] at h1
            exact Or.inl h1
    · exact Or.inr h2

/-- Bind on an `Except` error. -/
theorem except_bind_error {ε α β : Type} {e : ε} {g : α → Except ε β} :
    ((Except.error e : Except ε α) >>= g) = Except.error e := rfl

/-- Bind on an `Except` success. -/
theorem except_bind_ok {ε α β : Type} {a : α} {g : α → Except ε β} :
    ((Except.ok a : Except ε α) >>= g) = g a := rfl

/-- Invariant preservation through a monadic fold over `Except`. -/
theorem foldlM_except_inv {β : Type} {P : SbmlModel → Prop}
    {f : SbmlModel → β → Except String SbmlModel}
    (hstep : ∀ m x m2, P m → f m x = Except.ok m2 → P m2) :
    ∀ (l : List β) (m m2 : SbmlModel), P m →
      l.foldlM f m = Except.ok m2 → P m2 := by
  intro l
  induction l with
  | nil =>
    intro m m2 hP h
    rw [List.foldlM_nil] at h
    cases h
    exact hP
  | cons x xs ih =>
    intro m m2 hP h
    rw [List.foldlM_cons] at h
    cases hfx : f m x with
    | error e =>
      rw [hfx, except_bind_error] at h
      cases h
    | ok m1 =>
      rw [hfx, except_bind_ok] at h
      exact ih m1 m2 (hstep m x m1 hP hfx) h

/-- `mapFirst` with a function that preserves the projection `g`
preserves the projected list. -/
theorem map_mapFirst {p : α → Bool} {f : α → α} {g : α → β}
    (hg : ∀ a, g (f a) = g a) :
    ∀ l : List α, (mapFirst p f l).map g = l.map g := by
  intro l
  induction l with
  | nil => rfl
  | cons x xs ih =>
    by_cases hp : p x = true
    · unfold mapFirst
      rw [if_pos hp, List.map_cons, List.map_cons, hg]
    · unfold mapFirst
      rw [if_neg hp, List.map_cons, List.map_cons, ih]

/-- `speciesSetValue` does not change the species id. -/
theorem speciesSetValue_id (s : SbmlSpecies) (q : ℚ) :
    (speciesSetValue s q).id = s.id := by
  unfold speciesSetValue speciesSetInitialAmount speciesSetInitialConcentration
  by_cases hc : (s.initialAmount.isSome
      || (s.hasOnlySubstanceUnits && !s.initialConcentration.isSome)) = true
  · rw [if_pos hc]
  · rw [if_neg hc]

/-- `find?` through `mapFirst` on the first match, when the mutation
preserves the predicate. -/
theorem find?_mapFirst {p : α → Bool} {f : α → α} (hf : ∀ a, p (f a) = p a) :
    ∀ {l : List α} {x : α}, l.find? p = some x →
      (mapFirst p f l).find? p = some (f x) := by
  intro l
  induction l with
  | nil => intro x h; simp at h
  | cons a as ih =>
    intro x h
    cases hp : p a with
    | true =>
      rw [@find?_cons_true _ p a as hp] at h
      cases h
      unfold mapFirst
      rw [if_pos hp]
      exact @find?_cons_true _ p (f a) as (by rw [hf a]; exact hp)
    | false =>
      rw [@find?_cons_false _ p a as hp] at h
      unfold mapFirst
      rw [if_neg (by simp [hp])]
      rw [@find?_cons_false _ p a (mapFirst p f as) hp]
      exact ih h

/-- An id outside the species id list finds no species. -/
theorem getSpecies_none_of_not_mem {m : SbmlModel} {cid : String}
    (h : cid ∉ speciesIds m) : m.getSpecies cid = Option.none := by
  unfold SbmlModel.getSpecies
  rw [List.find?_eq_none]
  intro s hs he
  exact h ((beq_iff_eq.mp he) ▸ List.mem_map_of_mem (fun s => s.id) hs)

/-- A found species id is in the species id list. -/
theorem mem_speciesIds_of_getSpecies {m : SbmlModel} {cid : String}
    {s : SbmlSpecies} (h : m.getSpecies cid = some s) : cid ∈ speciesIds m := by
  unfold SbmlModel.getSpecies at h
  have h1 : s.id = cid := by simpa using List.find?_some h
  have h2 := List.mem_of_find?_eq_some h
  exact h1 ▸ List.mem_map_of_mem (fun s => s.id) h2

/-- An id outside the compartment id list finds no compartment. -/
theorem getCompartment_none_of_not_mem {m : SbmlModel} {cid : String}
    (h : cid ∉ compartmentIds m) : m.getCompartment cid = Option.none := by
  unfold SbmlModel.getCompartment
  rw [List.find?_eq_none]
  intro c hc he
  exact h ((beq_iff_eq.mp he) ▸ List.mem_map_of_mem (fun c => c.id) hc)

/-- A found compartment id is in the compartment id list. -/
theorem mem_compartmentIds_of_getCompartment {m : SbmlModel} {cid : String}
    {c : SbmlCompartment} (h : m.getCompartment cid = some c) :
    cid ∈ compartmentIds m := by
  unfold SbmlModel.getCompartment at h
  have h1 : c.id = cid := by simpa using List.find?_some h
  have h2 := List.mem_of_find?_eq_some h
  exact h1 ▸ List.mem_map_of_mem (fun c => c.id) h2

/-- The parameter loop step does not touch species or compartments. -/
theorem parameterStep_shape {pm : List (String × PyVal)}
    {nv : List (String × ℚ)} {m : SbmlModel} {i : Nat} {m2 : SbmlModel}
    (h : parameterStep pm nv m i = Except.ok m2) :
    m2.species = m.species ∧ m2.compartments = m.compartments := by
  unfold parameterStep at h
  cases hj : m.parameters[i]? with
  | none =>
    rw [hj] at h
    cases h
    exact ⟨rfl, rfl⟩
  | some pj =>
    rw [hj] at h
    dsimp only at h
    cases hg : get_param_value pm nv pj.id with
    | error e =>
      rw [hg] at h
      cases h
    | ok v =>
      rw [hg] at h
      dsimp only at h
      by_cases ht : v.truthy = true
      · rw [if_pos ht] at h
        cases v with
        | none => simp [PyVal.truthy] at ht
        | str s2 =>
          dsimp only at h
          cases h
        | num q =>
          dsimp only at h
          cases h
          exact ⟨rfl, rfl⟩
      · rw [if_neg ht] at h
        cases h
        exact ⟨rfl, rfl⟩

/-- The species loop step preserves the species ids and does not touch
compartments or parameters. -/
theorem speciesStep_shape {pm : List (String × PyVal)} {nv : List (String × ℚ)}
    {m : SbmlModel} {col : String × PyVal} {m2 : SbmlModel}
    (h : speciesStep pm nv m col = Except.ok m2) :
    speciesIds m2 = speciesIds m ∧ m2.compartments = m.compartments
      ∧ m2.parameters = m.parameters := by
  unfold speciesStep at h
  cases hg : m.getSpecies col.1 with
  | none =>
    rw [hg] at h
    cases h
    exact ⟨rfl, rfl, rfl⟩
  | some s0 =>
    rw [hg] at h
    dsimp only at h
    cases hv : resolveConditionValue pm nv col.2 with
    | error e =>
      rw [hv] at h
      cases h
    | ok v =>
      rw [hv] at h
      cases v with
      | num q =>
        dsimp only at h
        cases h
        refine ⟨?_, rfl, rfl⟩
        exact map_mapFirst (fun a => speciesSetValue_id a q) m.species
      | none =>
        dsimp only at h
        cases h
      | str s2 =>
        dsimp only at h
        cases h

/-- The compartment loop step preserves the compartment ids and does not
touch species or parameters. -/
theorem compartmentStep_shape {pm : List (String × PyVal)}
    {nv : List (String × ℚ)} {m : SbmlModel} {col : String × PyVal}
    {m2 : SbmlModel} (h : compartmentStep pm nv m col = Except.ok m2) :
    m2.species = m.species ∧ compartmentIds m2 = compartmentIds m
      ∧ m2.parameters = m.parameters := by
  unfold compartmentStep at h
  cases hg : m.getCompartment col.1 with
  | none =>
    rw [hg] at h
    cases h
    exact ⟨rfl, rfl, rfl⟩
  | some c0 =>
    rw [hg] at h
    dsimp only at h
    cases hv : resolveConditionValue pm nv col.2 with
    | error e =>
      rw [hv] at h
      cases h
    | ok v =>
      rw [hv] at h
      cases v with
      | num q =>
        dsimp only at h
        cases h
        refine ⟨rfl, ?_, rfl⟩
        exact @map_mapFirst _ _ (fun c => c.id == col.1)
          (fun c => { c with size := q }) (fun c => c.id)
          (fun a => rfl) m.compartments
      | none =>
        dsimp only at h
        cases h
      | str s2 =>
        dsimp only at h
        cases h

/-- A parameter loop step leaves a parameter untouched whose id the
mapping does not resolve. -/
theorem parameterStep_untouched {pm : List (String × PyVal)}
    {nv : List (String × ℚ)} {B : SbmlModel} {i : Nat} {p : SbmlParameter}
    (hmap : dictLookup pm p.id = Option.none)
    {m : SbmlModel} {j : Nat} {m2 : SbmlModel}
    (hP : paramUntouched B i p m) (h : parameterStep pm nv m j = Except.ok m2) :
    paramUntouched B i p m2 := by
  unfold parameterStep at h
  cases hj : m.parameters[j]? with
  | none =>
    rw [hj] at h
    cases h
    exact hP
  | some pj =>
    rw [hj] at h
    dsimp only at h
    by_cases hid : pj.id = p.id
    · have hg : get_param_value pm nv pj.id = Except.ok PyVal.none := by
        unfold get_param_value
        rw [hid, hmap]
      rw [hg] at h
      dsimp only at h
      rw [if_neg (by simp [PyVal.truthy])] at h
      cases h
      exact hP
    · cases hg : get_param_value pm nv pj.id with
      | error e =>
        rw [hg] at h
        cases h
      | ok v =>
        rw [hg] at h
        dsimp only at h
        cases v with
        | none =>
          rw [if_neg (by simp [PyVal.truthy])] at h
          cases h
          exact hP
        | str s2 =>
          by_cases hts : (PyVal.str s2).truthy = true
          · rw [if_pos hts] at h
            dsimp only at h
            cases h
          · rw [if_neg hts] at h
            cases h
            exact hP
        | num q =>
          by_cases htq : (PyVal.num q).truthy = true
          · rw [if_pos htq] at h
            dsimp only at h
            cases h
            obtain ⟨h1, h2, h3, h4, h5⟩ := hP
            have hij : i ≠ j := by
              intro he
              apply hid
              rw [← he] at hj
              have := h1.symm.trans hj
              injection this with hpj
              rw [← hpj]
            refine ⟨?_, h2, h3, ?_, ?_⟩
            · show (m.parameters.set j { pj with value := q })[i]? = some p
              rw [List.getElem?_set_ne (Ne.symm hij)]
              exact h1
            · intro r hr hrv
              have hin : r ∈ m.rules := h4 r hr hrv
              show r ∈ removeFirst (fun r2 => r2.var == pj.id) m.rules
              refine mem_removeFirst_of_not _ hin ?_
              refine beq_eq_false_iff_ne.mpr ?_
              rw [hrv]
              exact fun he => hid he.symm
            · intro a ha hav
              have hin : a ∈ m.initialAssignments := h5 a ha hav
              show a ∈ removeFirst (fun a2 => a2.symbol == pj.id) m.initialAssignments
              refine mem_removeFirst_of_not _ hin ?_
              refine beq_eq_false_iff_ne.mpr ?_
              rw [hav]
              exact fun he => hid he.symm
          · rw [if_neg htq] at h
            cases h
            exact hP

/-- A species loop step leaves a parameter untouched whose id is not a
species id of the base model. -/
theorem speciesStep_untouched {pm : List (String × PyVal)}
    {nv : List (String × ℚ)} {B : SbmlModel} {i : Nat} {p : SbmlParameter}
    (hspec : p.id ∉ speciesIds B)
    {m : SbmlModel} {col : String × PyVal} {m2 : SbmlModel}
    (hP : paramUntouched B i p m)
    (h : speciesStep pm nv m col = Except.ok m2) :
    paramUntouched B i p m2 := by
  unfold speciesStep at h
  cases hg : m.getSpecies col.1 with
  | none =>
    rw [hg] at h
    cases h
    exact hP
  | some s0 =>
    obtain ⟨h1, h2, h3, h4, h5⟩ := hP
    have hcid : col.1 ≠ p.id := by
      intro he
      apply hspec
      rw [← he, ← h2]
      exact mem_speciesIds_of_getSpecies hg
    rw [hg] at h
    dsimp only at h
    cases hv : resolveConditionValue pm nv col.2 with
    | error e =>
      rw [hv] at h
      cases h
    | ok v =>
      rw [hv] at h
      cases v with
      | num q =>
        dsimp only at h
        cases h
        refine ⟨h1, ?_, h3, ?_, ?_⟩
        · have hids : speciesIds ((remove_rules m col.1).setSpeciesInitial col.1 q)
              = speciesIds m :=
            map_mapFirst (fun a => speciesSetValue_id a q) m.species
          exact hids.trans h2
        · intro r hr hrv
          have hin : r ∈ m.rules := h4 r hr hrv
          show r ∈ removeFirst (fun r2 => r2.var == col.1) m.rules
          refine mem_removeFirst_of_not _ hin (beq_eq_false_iff_ne.mpr ?_)
          rw [hrv]
          exact Ne.symm hcid
        · intro a ha hav
          have hin : a ∈ m.initialAssignments := h5 a ha hav
          show a ∈ removeFirst (fun a2 => a2.symbol == col.1) m.initialAssignments
          refine mem_removeFirst_of_not _ hin (beq_eq_false_iff_ne.mpr ?_)
          rw [hav]
          exact Ne.symm hcid
      | none =>
        dsimp only at h
        cases h
      | str s2 =>
        dsimp only at h
        cases h

/-- A compartment loop step leaves a parameter untouched whose id is not
a compartment id of the base model. -/
theorem compartmentStep_untouched {pm : List (String × PyVal)}
    {nv : List (String × ℚ)} {B : SbmlModel} {i : Nat} {p : SbmlParameter}
    (hcomp : p.id ∉ compartmentIds B)
    {m : SbmlModel} {col : String × PyVal} {m2 : SbmlModel}
    (hP : paramUntouched B i p m)
    (h : compartmentStep pm nv m col = Except.ok m2) :
    paramUntouched B i p m2 := by
  unfold compartmentStep at h
  cases hg : m.getCompartment col.1 with
  | none =>
    rw [hg] at h
    cases h
    exact hP
  | some c0 =>
    obtain ⟨h1, h2, h3, h4, h5⟩ := hP
    have hcid : col.1 ≠ p.id := by
      intro he
      apply hcomp
      rw [← he, ← h3]
      exact mem_compartmentIds_of_getCompartment hg
    rw [hg] at h
    dsimp only at h
    cases hv : resolveConditionValue pm nv col.2 with
    | error e =>
      rw [hv] at h
      cases h
    | ok v =>
      rw [hv] at h
      cases v with
      | num q =>
        dsimp only at h
        cases h
        refine ⟨h1, h2, ?_, ?_, ?_⟩
        · have hids : compartmentIds ((remove_rules m col.1).setCompartmentSize col.1 q)
              = compartmentIds m := by
            show (mapFirst (fun c => c.id == col.1)
                (fun c => { c with size := q }) m.compartments).map (fun c => c.id)
              = m.compartments.map (fun c => c.id)
            exact @map_mapFirst _ _ (fun c => c.id == col.1)
              (fun c => { c with size := q }) (fun c => c.id)
              (fun a => rfl) m.compartments
          exact hids.trans h3
        · intro r hr hrv
          have hin : r ∈ m.rules := h4 r hr hrv
          show r ∈ removeFirst (fun r2 => r2.var == col.1) m.rules
          refine mem_removeFirst_of_not _ hin (beq_eq_false_iff_ne.mpr ?_)
          rw [hrv]
          exact Ne.symm hcid
        · intro a ha hav
          have hin : a ∈ m.initialAssignments := h5 a ha hav
          show a ∈ removeFirst (fun a2 => a2.symbol == col.1) m.initialAssignments
          refine mem_removeFirst_of_not _ hin (beq_eq_false_iff_ne.mpr ?_)
          rw [hav]
          exact Ne.symm hcid
      | none =>
        dsimp only at h
        cases h
      | str s2 =>
        dsimp only at h
        cases h

/-- The species pass acts identically with and without a column that
names no species. -/
theorem speciesFold_skip (pm : List (String × PyVal)) (nv : List (String × ℚ))
    (post : List (String × PyVal)) (cid : String) (v : PyVal) (B : SbmlModel)
    (hs : cid ∉ speciesIds B) :
    ∀ (pre : List (String × PyVal)) (m : SbmlModel), speciesIds m = speciesIds B →
      (pre ++ (cid, v) :: post).foldlM (speciesStep pm nv) m
        = (pre ++ post).foldlM (speciesStep pm nv) m := by
  intro pre
  induction pre with
  | nil =>
    intro m hm
    rw [List.nil_append, List.nil_append, List.foldlM_cons]
    have hnone : m.getSpecies cid = Option.none :=
      getSpecies_none_of_not_mem (fun hmem => hs (hm ▸ hmem))
    have hstep : speciesStep pm nv m (cid, v) = Except.ok m := by
      unfold speciesStep
      dsimp only
      rw [hnone]
    rw [hstep, except_bind_ok]
  | cons c0 pre ih =>
    intro m hm
    rw [List.cons_append, List.cons_append, List.foldlM_cons, List.foldlM_cons]
    cases hc : speciesStep pm nv m c0 with
    | error e => rw [except_bind_error, except_bind_error]
    | ok m1 =>
      rw [except_bind_ok, except_bind_ok]
      exact ih m1 ((speciesStep_shape hc).1.trans hm)

/-- The compartment pass acts identically with and without a column that
names no compartment. -/
theorem compartmentFold_skip (pm : List (String × PyVal))
    (nv : List (String × ℚ)) (post : List (String × PyVal)) (cid : String)
    (v : PyVal) (B : SbmlModel) (hc : cid ∉ compartmentIds B) :
    ∀ (pre : List (String × PyVal)) (m : SbmlModel),
      compartmentIds m = compartmentIds B →
      (pre ++ (cid, v) :: post).foldlM (compartmentStep pm nv) m
        = (pre ++ post).foldlM (compartmentStep pm nv) m := by
  intro pre
  induction pre with
  | nil =>
    intro m hm
    rw [List.nil_append, List.nil_append, List.foldlM_cons]
    have hnone : m.getCompartment cid = Option.none :=
      getCompartment_none_of_not_mem (fun hmem => hc (hm ▸ hmem))
    have hstep : compartmentStep pm nv m (cid, v) = Except.ok m := by
      unfold compartmentStep
      dsimp only
      rw [hnone]
    rw [hstep, except_bind_ok]
  | cons c0 pre ih =>
    intro m hm
    rw [List.cons_append, List.cons_append, List.foldlM_cons, List.foldlM_cons]
    cases hcs : compartmentStep pm nv m c0 with
    | error e => rw [except_bind_error, except_bind_error]
    | ok m1 =>
      rw [except_bind_ok, except_bind_ok]
      exact ih m1 ((compartmentStep_shape hcs).2.1.trans hm)

/-! ## Claim theorems -/

/-- Claim C1 (code bug in `get_model_for_condition`): the guard
`if new_value:` is a Python truthiness test, so a parameter whose id
resolves through the mapping to the literal value `0.0` is silently
skipped: its value is not set and the assignment rule targeting it is
retained.  Concretely, with `k1 = 2` under an assignment rule and the
mapping resolving `k1` to `0.0`, the build returns the clone completely
unchanged, while the claim requires value `0` and no rule on `k1`. -/
theorem claim_C1_zero_override_skipped :
    dictLookup zeroOverrideInput.parameter_map "k1" = some (PyVal.num 0)
    ∧ get_model_for_condition zeroOverrideInput zeroOverrideModel
        = Except.ok zeroOverrideModel
    ∧ zeroOverrideModel.getParameter "k1" = some ⟨"k1", "k1", 2, false⟩
    ∧ zeroOverrideModel.getRuleByVariable "k1"
        = some ⟨SbmlRuleType.assignment, "k1", "2 * x"⟩ :=
  ⟨rfl, rfl, rfl, rfl⟩

/-- Claim C2: `get_model_for_condition` mutates only the appended clone
document: after the call, whether it returned or failed, every document
handle other than the fresh clone handle `st.length` refers to exactly
the document it referred to before; in particular the base model document
is unchanged. -/
theorem claim_C2_base_model_unchanged (inp : CondInput) (st : List SbmlModel)
    (base j : Nat) (hj : j ≠ st.length) :
    ((get_model_for_condition_store inp st base).1)[j]? = st[j]? := by
  unfold get_model_for_condition_store
  cases hb : st[base]? with
  | none => rfl
  | some base_doc =>
    dsimp only
    cases hac : applyCondition inp.parameter_map inp.nominal_values inp.condition_row base_doc with
    | ok m2 =>
      dsimp only
      rw [List.getElem?_set_ne (Ne.symm hj)]
      exact getElem?_append_singleton_ne hj
    | error e =>
      dsimp only
      exact getElem?_append_singleton_ne hj

/-- Witness for C2 at a concrete store: the base document at handle 0 is
unchanged by the build. -/
theorem claim_C2_witness :
    ((get_model_for_condition_store zeroOverrideInput [zeroOverrideModel] 0).1)[0]?
      = [zeroOverrideModel][0]? :=
  claim_C2_base_model_unchanged zeroOverrideInput [zeroOverrideModel] 0 0 (by decide)

/-- `getSpecies` after `setSpeciesInitial` returns the updated species. -/
theorem getSpecies_setSpeciesInitial {m : SbmlModel} {cid : String}
    {s : SbmlSpecies} (h : m.getSpecies cid = some s) (q : ℚ) :
    (m.setSpeciesInitial cid q).getSpecies cid = some (speciesSetValue s q) :=
  find?_mapFirst (fun a => by rw [speciesSetValue_id]) h

/-- Claim C3: for a species overridden by a condition column with a
resolved numeric value, the species loop sets the value as initial
amount exactly when the species already has an initial amount set, or has
only substance units and no initial concentration set; in every other
case it sets the value as initial concentration; either way the other
value kind ends up unset. -/
theorem claim_C3_species_value_kind (pm : List (String × PyVal))
    (nv : List (String × ℚ)) (m : SbmlModel) (cid : String) (v : PyVal)
    (s : SbmlSpecies) (q : ℚ)
    (hs : m.getSpecies cid = some s)
    (hv : resolveConditionValue pm nv v = Except.ok (PyVal.num q)) :
    ∃ m2 s2, speciesStep pm nv m (cid, v) = Except.ok m2
      ∧ m2.getSpecies cid = some s2
      ∧ ((s.initialAmount.isSome = true
            ∨ (s.hasOnlySubstanceUnits = true ∧ s.initialConcentration = Option.none))
          → s2.initialAmount = some q ∧ s2.initialConcentration = Option.none)
      ∧ (¬(s.initialAmount.isSome = true
            ∨ (s.hasOnlySubstanceUnits = true ∧ s.initialConcentration = Option.none))
          → s2.initialConcentration = some q ∧ s2.initialAmount = Option.none) := by
  have hiff : (s.initialAmount.isSome
        || (s.hasOnlySubstanceUnits && !s.initialConcentration.isSome)) = true
      ↔ (s.initialAmount.isSome = true
        ∨ (s.hasOnlySubstanceUnits = true ∧ s.initialConcentration = Option.none)) := by
    cases hC : s.initialConcentration with
    | none => simp
    | some c => simp
  refine ⟨(remove_rules m cid).setSpeciesInitial cid q, speciesSetValue s q,
    ?_, ?_, ?_, ?_⟩
  · unfold speciesStep
    dsimp only
    rw [hs]
    dsimp only
    rw [hv]
  · have hs2 : (remove_rules m cid).getSpecies cid = some s := hs
    exact getSpecies_setSpeciesInitial hs2 q
  · intro hcond
    have hb := hiff.mpr hcond
    unfold speciesSetValue speciesSetInitialAmount
    rw [if_pos hb]
    exact ⟨rfl, rfl⟩
  · intro hncond
    have hb : (s.initialAmount.isSome
        || (s.hasOnlySubstanceUnits && !s.initialConcentration.isSome)) = false := by
      cases hbb : (s.initialAmount.isSome
          || (s.hasOnlySubstanceUnits && !s.initialConcentration.isSome)) with
      | false => rfl
      | true => exact absurd (hiff.mp hbb) hncond
    unfold speciesSetValue speciesSetInitialConcentration
    rw [if_neg (by rw [hb]; exact Bool.false_ne_true)]
    exact ⟨rfl, rfl⟩

/-- Witness for C3 at an amount only species: the override becomes an
initial amount and the initial concentration stays unset. -/
theorem claim_C3_witness :
    ∃ m2 s2, speciesStep [] [] amountSpeciesModel ("S1", PyVal.num 10)
        = Except.ok m2
      ∧ m2.getSpecies "S1" = some s2
      ∧ (((Option.none : Option ℚ).isSome = true
            ∨ (true = true ∧ (Option.none : Option ℚ) = Option.none))
          → s2.initialAmount = some 10 ∧ s2.initialConcentration = Option.none)
      ∧ (¬((Option.none : Option ℚ).isSome = true
            ∨ (true = true ∧ (Option.none : Option ℚ) = Option.none))
          → s2.initialConcentration = some 10 ∧ s2.initialAmount = Option.none) :=
  claim_C3_species_value_kind [] [] amountSpeciesModel "S1" (PyVal.num 10)
    ⟨"S1", "C1", Option.none, Option.none, true⟩ 10 (by decide) (by decide)

/-- Claim C4 (code bug in `PySBModel.get_parameter_value`): on an
existing parameter id the source returns
`self.model.parameters[id_].name` — the parameter NAME, a string — not
the numeric value announced by the interface documentation; the missing
id case raises as specified.  Concretely, for a model whose parameter
`k1` has value `2.0`, querying `k1` yields the string `"k1"`. -/
theorem claim_C4_pysb_value_is_name :
    pysb_get_parameter_value pysbExampleModel "k1" = Except.ok (PyVal.str "k1")
    ∧ pysb_get_parameter_value pysbExampleModel "k1" ≠ Except.ok (PyVal.num 2)
    ∧ pysb_get_parameter_value pysbExampleModel "missing"
        = Except.error ("Parameter " ++ "missing" ++ " does not exist.") := by
  refine ⟨rfl, ?_, rfl⟩
  decide

/-- Claim C5: with `remove = True`, `assignment_rules_to_dict` deletes,
for every target id in the returned mapping, both the rule and the
parameter declaration, so that re querying the model afterwards finds the
id neither as a parameter nor as a rule target.  The model satisfies the
SBML uniqueness invariants: rule variables and parameter ids are
duplicate free. -/
theorem claim_C5_remove_is_destructive (sbml_model : SbmlModel)
    (filter_function : SbmlParameter → Bool)
    (hrules : (sbml_model.rules.map (fun r => r.var)).Nodup)
    (hparams : (sbml_model.parameters.map (fun p => p.id)).Nodup) :
    ∀ k ∈ dictKeys (assignment_rules_to_dict sbml_model filter_function true).1,
      (assignment_rules_to_dict sbml_model filter_function true).2.getParameter k
          = Option.none
      ∧ (assignment_rules_to_dict sbml_model filter_function true).2.getRuleByVariable k
          = Option.none := by
  intro k hk
  have h2 : (assignment_rules_to_dict sbml_model filter_function true).2
      = (dictKeys (rulesToDictResult sbml_model filter_function)).foldl
          (fun mm pid => (mm.removeRuleByVariable pid).removeParameter pid)
          sbml_model := rfl
  have hk2 : k ∈ dictKeys (rulesToDictResult sbml_model filter_function) := hk
  constructor
  · rw [h2]
    unfold SbmlModel.getParameter
    rw [removeLoop_parameters]
    rw [List.find?_eq_none]
    intro p hp
    have hne := foldRemove_not_mem (fun p : SbmlParameter => p.id) _ _ hparams k hk2 p hp
    simpa using hne
  · rw [h2]
    unfold SbmlModel.getRuleByVariable
    rw [removeLoop_rules]
    rw [List.find?_eq_none]
    intro r hr
    have hne := foldRemove_not_mem (fun r : SbmlRule => r.var) _ _ hrules k hk2 r hr
    simpa using hne

/-- Witness for C5: extracting the sigma rules destructively from the
concrete example model removes both the sigma rule and the sigma
parameter. -/
theorem claim_C5_witness :
    (assignment_rules_to_dict sigExampleModel sbml_parameter_is_sigma true).2.getParameter
        "sigma_obsA" = Option.none
    ∧ (assignment_rules_to_dict sigExampleModel sbml_parameter_is_sigma true).2.getRuleByVariable
        "sigma_obsA" = Option.none :=
  claim_C5_remove_is_destructive sigExampleModel sbml_parameter_is_sigma
    (by decide) (by decide) "sigma_obsA" (by decide)

/-- Claim C6: with `remove = False`, `assignment_rules_to_dict` leaves
the model completely unchanged, and calling it twice in succession
returns two identical mappings. -/
theorem claim_C6_extract_rules_pure (sbml_model : SbmlModel)
    (filter_function : SbmlParameter → Bool) :
    (assignment_rules_to_dict sbml_model filter_function false).2 = sbml_model
    ∧ assignment_rules_to_dict
        (assignment_rules_to_dict sbml_model filter_function false).2
        filter_function false
      = assignment_rules_to_dict sbml_model filter_function false :=
  ⟨rfl, rfl⟩

/-- Claim C7: for any model containing an assignment rule targeting a
parameter whose id starts with the sigma marker, `get_sigmas` maps the
key obtained by substituting the observable marker for the sigma marker
to the sigma rule formula, and the original sigma key does not appear in
the result.  Rule variables are duplicate free (the SBML invariant of at
most one rule per target). -/
theorem claim_C7_sigma_key_renormalized (m : SbmlModel) (r : SbmlRule)
    (p : SbmlParameter) (hr : r ∈ m.rules)
    (hty : r.typeCode = SbmlRuleType.assignment)
    (hp : m.getParameter r.var = some p)
    (hsig : strStartsWith r.var "sigma_" = true)
    (hnd : (m.rules.map (fun r => r.var)).Nodup) :
    dictLookup (get_sigmas m false).1 (reSubStart "sigma_" "observable_" r.var)
        = some r.formula
    ∧ dictLookup (get_sigmas m false).1 r.var = Option.none := by
  have hfilter : sbml_parameter_is_sigma p = true := by
    unfold sbml_parameter_is_sigma
    rw [getParameter_id hp]
    exact hsig
  have hfind : (rulesToDictResult m sbml_parameter_is_sigma).find?
      (fun kv => kv.1 == r.var) = some (r.var, ⟨p.name, r.formula⟩) :=
    find?_rulesToDictFold_mem m sbml_parameter_is_sigma m.rules [] hnd r hr hty
      p hp hfilter
  have hsigkeys : ∀ kv ∈ rulesToDictResult m sbml_parameter_is_sigma,
      strStartsWith kv.1 "sigma_" = true := by
    intro kv hkv
    rcases mem_rulesToDictFold m sbml_parameter_is_sigma m.rules [] kv hkv with
      h0 | ⟨p2, hp2, hf2⟩
    · cases h0
    · unfold sbml_parameter_is_sigma at hf2
      rw [getParameter_id hp2] at hf2
      exact hf2
  have hmap : (get_sigmas m false).1
      = (rulesToDictResult m sbml_parameter_is_sigma).map
          (fun kv => (reSubStart "sigma_" "observable_" kv.1, kv.2.formula)) := rfl
  constructor
  · rw [hmap]
    unfold dictLookup
    rw [List.find?_map]
    have hcongr : (rulesToDictResult m sbml_parameter_is_sigma).find?
        ((fun kv : String × String =>
            kv.1 == reSubStart "sigma_" "observable_" r.var)
          ∘ (fun kv : String × RuleEntry =>
              (reSubStart "sigma_" "observable_" kv.1, kv.2.formula)))
        = (rulesToDictResult m sbml_parameter_is_sigma).find?
            (fun kv => kv.1 == r.var) := by
      apply find?_congr
      intro kv hkv
      show (reSubStart "sigma_" "observable_" kv.1
          == reSubStart "sigma_" "observable_" r.var) = (kv.1 == r.var)
      by_cases he : kv.1 = r.var
      · rw [he]
        simp
      · have hne : reSubStart "sigma_" "observable_" kv.1
            ≠ reSubStart "sigma_" "observable_" r.var := by
          intro hq
          exact he (reSubStart_inj_on_sigma (hsigkeys kv hkv) hsig hq)
        rw [beq_eq_false_iff_ne.mpr hne, beq_eq_false_iff_ne.mpr he]
    rw [hcongr, hfind]
    rfl
  · rw [hmap]
    unfold dictLookup
    rw [List.find?_map]
    have hnone : (rulesToDictResult m sbml_parameter_is_sigma).find?
        ((fun kv : String × String => kv.1 == r.var)
          ∘ (fun kv : String × RuleEntry =>
              (reSubStart "sigma_" "observable_" kv.1, kv.2.formula)))
        = Option.none := by
      rw [List.find?_eq_none]
      intro kv hkv
      show ¬(reSubStart "sigma_" "observable_" kv.1 == r.var) = true
      simp only [beq_iff_eq]
      exact reSubStart_ne_sigma hsig (hsigkeys kv hkv)
    rw [hnone]
    rfl

/-- Witness for C7: the concrete example model with a sigma rule for
`obsA`. -/
theorem claim_C7_witness :
    dictLookup (get_sigmas sigExampleModel false).1
        (reSubStart "sigma_" "observable_" "sigma_obsA")
        = some "noiseParameter1_obsA"
    ∧ dictLookup (get_sigmas sigExampleModel false).1 "sigma_obsA"
        = Option.none :=
  claim_C7_sigma_key_renormalized sigExampleModel
    ⟨SbmlRuleType.assignment, "sigma_obsA", "noiseParameter1_obsA"⟩
    ⟨"sigma_obsA", "sigA", 0, false⟩
    (by decide) rfl (by decide) (by decide) (by decide)

/-- Claim C8: a condition table column whose id names neither a species
nor a compartment of the base model is silently skipped: the build
behaves exactly as if the column were absent, so it neither raises nor
mutates any entity for it. -/
theorem claim_C8_unknown_column_skipped (pm : List (String × PyVal))
    (nv : List (String × ℚ)) (pre post : List (String × PyVal))
    (cid : String) (v : PyVal) (B : SbmlModel)
    (hs : cid ∉ speciesIds B) (hc : cid ∉ compartmentIds B) :
    get_model_for_condition ⟨pm, nv, pre ++ (cid, v) :: post⟩ B
      = get_model_for_condition ⟨pm, nv, pre ++ post⟩ B := by
  unfold get_model_for_condition applyCondition
  dsimp only
  cases hpl : parameterLoop pm nv B with
  | error e => rfl
  | ok m1 =>
    dsimp only
    have hstep1 : ∀ (mm : SbmlModel) (x : Nat) (mm2 : SbmlModel),
        (speciesIds mm = speciesIds B ∧ mm.compartments = B.compartments) →
        parameterStep pm nv mm x = Except.ok mm2 →
        (speciesIds mm2 = speciesIds B ∧ mm2.compartments = B.compartments) := by
      intro mm x mm2 hP h
      have hsh := parameterStep_shape h
      constructor
      · show mm2.species.map (fun s => s.id) = B.species.map (fun s => s.id)
        rw [hsh.1]
        exact hP.1
      · rw [hsh.2]
        exact hP.2
    have hm1 : speciesIds m1 = speciesIds B ∧ m1.compartments = B.compartments :=
      foldlM_except_inv hstep1 _ B m1 ⟨rfl, rfl⟩ hpl
    rw [speciesFold_skip pm nv post cid v B hs pre m1 hm1.1]
    cases hsf : (pre ++ post).foldlM (speciesStep pm nv) m1 with
    | error e => rfl
    | ok m2 =>
      dsimp only
      have hstep2 : ∀ (mm : SbmlModel) (x : String × PyVal) (mm2 : SbmlModel),
          mm.compartments = m1.compartments →
          speciesStep pm nv mm x = Except.ok mm2 →
          mm2.compartments = m1.compartments := by
        intro mm x mm2 hP h
        rw [(speciesStep_shape h).2.1]
        exact hP
      have hm2 : compartmentIds m2 = compartmentIds B := by
        have hcm : m2.compartments = m1.compartments :=
          foldlM_except_inv hstep2 _ m1 m2 rfl hsf
        show m2.compartments.map (fun c => c.id) = B.compartments.map (fun c => c.id)
        rw [hcm, hm1.2]
      rw [compartmentFold_skip pm nv post cid v B hc pre m2 hm2]

/-- Witness for C8: a column that names nothing in the concrete model is
skipped by the build. -/
theorem claim_C8_witness :
    get_model_for_condition ⟨[], [], [("someColumn", PyVal.num 1)]⟩
        amountSpeciesModel
      = get_model_for_condition ⟨[], [], []⟩ amountSpeciesModel :=
  claim_C8_unknown_column_skipped [] [] [] [] "someColumn" (PyVal.num 1)
    amountSpeciesModel (by decide) (by decide)

/-- Claim C9: `model_factory` dispatches the tag `sbml` and the tag
`pysb` to the corresponding variant loader, and fails with the
unsupported format error on every other tag; on such a tag the result is
independent of the loaders and of the source, so no source access
happens. -/
theorem claim_C9_factory_dispatch {α : Type}
    (load_sbml load_sbml2 : α → SbmlModel) (load_pysb load_pysb2 : α → PysbModel)
    (src src2 : α) (model_language : String)
    (h1 : model_language ≠ "sbml") (h2 : model_language ≠ "pysb") :
    model_factory load_sbml load_pysb src model_language
        = Except.error ("Unsupported model format: " ++ model_language)
    ∧ model_factory load_sbml load_pysb src model_language
        = model_factory load_sbml2 load_pysb2 src2 model_language
    ∧ model_factory load_sbml load_pysb src "sbml"
        = Except.ok (LoadedModel.sbml (load_sbml src))
    ∧ model_factory load_sbml load_pysb src "pysb"
        = Except.ok (LoadedModel.pysb (load_pysb src)) := by
  refine ⟨?_, ?_, rfl, rfl⟩ <;> simp [model_factory, h1, h2]

/-- Witness for C9 at the concrete unsupported tag `bngl`. -/
theorem claim_C9_witness :
    model_factory (fun _ : Unit => emptySbmlModel) (fun _ => emptyPysbModel) () "bngl"
        = Except.error ("Unsupported model format: " ++ "bngl")
    ∧ model_factory (fun _ : Unit => emptySbmlModel) (fun _ => emptyPysbModel) () "bngl"
        = model_factory (fun _ : Unit => emptySbmlModel) (fun _ => emptyPysbModel) () "bngl"
    ∧ model_factory (fun _ : Unit => emptySbmlModel) (fun _ => emptyPysbModel) () "sbml"
        = Except.ok (LoadedModel.sbml emptySbmlModel)
    ∧ model_factory (fun _ : Unit => emptySbmlModel) (fun _ => emptyPysbModel) () "pysb"
        = Except.ok (LoadedModel.pysb emptyPysbModel) :=
  claim_C9_factory_dispatch _ _ _ _ () () "bngl" (by decide) (by decide)

/-- Claim C10: a model parameter whose id is absent from the parameter
mapping is left completely untouched by the build: the parameter (and in
particular its stored value) is unchanged, and every assignment rule or
initial assignment of the base model targeting it is retained in the
returned clone.  The parameter id does not collide with a species or a
compartment id (the SBML global id uniqueness invariant). -/
theorem claim_C10_unmapped_parameter_untouched (inp : CondInput)
    (B : SbmlModel) (i : Nat) (p : SbmlParameter) (m2 : SbmlModel)
    (hi : B.parameters[i]? = some p)
    (hmap : dictLookup inp.parameter_map p.id = Option.none)
    (hspec : p.id ∉ speciesIds B)
    (hcomp : p.id ∉ compartmentIds B)
    (hok : get_model_for_condition inp B = Except.ok m2) :
    m2.parameters[i]? = some p
    ∧ (∀ r ∈ B.rules, r.var = p.id → r ∈ m2.rules)
    ∧ (∀ a ∈ B.initialAssignments, a.symbol = p.id → a ∈ m2.initialAssignments) := by
  unfold get_model_for_condition applyCondition at hok
  cases hpl : parameterLoop inp.parameter_map inp.nominal_values B with
  | error e =>
    rw [hpl] at hok
    cases hok
  | ok ma =>
    rw [hpl] at hok
    dsimp only at hok
    have hPa : paramUntouched B i p ma := by
      have hstep : ∀ (mm : SbmlModel) (x : Nat) (mm2 : SbmlModel),
          paramUntouched B i p mm →
          parameterStep inp.parameter_map inp.nominal_values mm x = Except.ok mm2 →
          paramUntouched B i p mm2 :=
        fun mm x mm2 hPP hh => parameterStep_untouched hmap hPP hh
      exact foldlM_except_inv hstep _ B ma
        ⟨hi, rfl, rfl, fun r hr _ => hr, fun a ha _ => ha⟩ hpl
    cases hsf : inp.condition_row.foldlM
        (speciesStep inp.parameter_map inp.nominal_values) ma with
    | error e =>
      rw [hsf] at hok
      cases hok
    | ok mb =>
      rw [hsf] at hok
      dsimp only at hok
      have hPb : paramUntouched B i p mb := by
        have hstep : ∀ (mm : SbmlModel) (x : String × PyVal) (mm2 : SbmlModel),
            paramUntouched B i p mm →
            speciesStep inp.parameter_map inp.nominal_values mm x = Except.ok mm2 →
            paramUntouched B i p mm2 :=
          fun mm x mm2 hPP hh => speciesStep_untouched hspec hPP hh
        exact foldlM_except_inv hstep _ ma mb hPa hsf
      have hPc : paramUntouched B i p m2 := by
        have hstep : ∀ (mm : SbmlModel) (x : String × PyVal) (mm2 : SbmlModel),
            paramUntouched B i p mm →
            compartmentStep inp.parameter_map inp.nominal_values mm x = Except.ok mm2 →
            paramUntouched B i p mm2 :=
          fun mm x mm2 hPP hh => compartmentStep_untouched hcomp hPP hh
        exact foldlM_except_inv hstep _ mb m2 hPb hok
      exact ⟨hPc.1, hPc.2.2.2.1, hPc.2.2.2.2⟩

/-- Witness for C10: an empty parameter mapping leaves the parameter and
the rule targeting it in place. -/
theorem claim_C10_witness :
    zeroOverrideModel.parameters[0]? = some ⟨"k1", "k1", 2, false⟩
    ∧ (∀ r ∈ zeroOverrideModel.rules,
        r.var = "k1" → r ∈ zeroOverrideModel.rules)
    ∧ (∀ a ∈ zeroOverrideModel.initialAssignments,
        a.symbol = "k1" → a ∈ zeroOverrideModel.initialAssignments) :=
  claim_C10_unmapped_parameter_untouched ⟨[], [], []⟩ zeroOverrideModel 0
    ⟨"k1", "k1", 2, false⟩ zeroOverrideModel (by decide) (by decide)
    (by decide) (by decide) (by decide)

end PetabSpec
